import Mathlib

/-!
Verification of the wopr-plugin-imessage channel plugin.

The definitions below are a shallow embedding of the plugin's source:
  * `src/index.ts` — routing policy (`shouldRespond`), session keys
    (`buildSessionKey`), outbound chunking (`sendResponse`);
  * `src/pairing.ts` — pairing registry, rate limiter, claim flow;
  * `src/imsg-client.ts` — JSON-RPC response correlation (`handleLine`,
    `failAll`).

JavaScript idioms are modelled explicitly: `a || b` on strings becomes
`jsOrS` (empty string is falsy), `Array.includes`/`String.includes`
become list membership / substring tests, `Date.now()` becomes an
explicit `now : Nat` argument, `Math`/`crypto` randomness becomes an
explicit stream of naturals, and the module-level mutable `Map`s become
insertion-ordered association lists threaded through each operation.
-/

namespace WoprIMessage

/-- JS `a || b` for strings: the empty string is falsy. -/
def jsOrS (a b : String) : String := if a = "" then b else a

/-- `pat` occurs as a contiguous substring of `l` (occurrence may start at
any position, including `l.length` for the empty pattern). -/
def listIncludes (l pat : List Char) : Bool :=
  (List.range (l.length + 1)).any (fun i => pat.isPrefixOf (l.drop i))

/-- JS `s.includes(pat)`: `pat` occurs as a contiguous substring of `s`. -/
def jsIncludes (s pat : String) : Bool := listIncludes s.data pat.data

/-- JS `String.prototype.trim` on a character list. -/
def jsTrimList (l : List Char) : List Char :=
  ((l.dropWhile Char.isWhitespace).reverse.dropWhile Char.isWhitespace).reverse

/-- JS `s.trim()`. -/
def jsTrim (s : String) : String := String.mk (jsTrimList s.data)

/-- JS `s.toUpperCase()` (ASCII case mapping, which covers pairing codes). -/
def jsToUpper (s : String) : String := String.mk (s.data.map Char.toUpper)

/-- Incoming message payload (types.ts `IncomingMessage`).  Optional string
fields are modelled as strings with `""` for `undefined`, which coincides
with JS truthiness in every use site; `chat_id` is an optional number. -/
structure IncomingMessage where
  text : String := ""
  sender : String := ""
  handle : String := ""
  chat_id : Option Int := none
  chat_guid : String := ""
  chat_identifier : String := ""
  is_group : Bool := false
deriving DecidableEq, Repr

/-- The `channels.imessage` configuration subtree (types.ts `IMessageConfig`),
restricted to the fields the verified code reads.  `""`/`[]`/`0` stand for
`undefined`, matching the `||`-defaulting at each use site. -/
structure IMessageConfig where
  dmPolicy : String := ""
  allowFrom : List String := []
  groupPolicy : String := ""
  groupAllowFrom : List String := []
  textChunkLimit : Nat := 0
deriving DecidableEq, Repr

/-- Result of the routing decision: `shouldRespond` returns
`false` / `true` / the string `"pairing"` in the source. -/
inductive RespondDecision where
  | accept
  | reject
  | pairing
deriving DecidableEq, Repr

/-- `msg.sender || msg.handle || ""` as computed inside `shouldRespond`. -/
def effectiveSender (msg : IncomingMessage) : String :=
  jsOrS msg.sender (jsOrS msg.handle "")

/-- index.ts `shouldRespond`: decide whether to respond to an inbound
message given the current configuration. -/
def shouldRespond (msg : IncomingMessage) (config : IMessageConfig) : RespondDecision :=
  if jsTrim msg.text = "" then .reject
  else
    let sender := effectiveSender msg
    if msg.is_group = false then
      let policy := jsOrS config.dmPolicy "pairing"
      if policy = "closed" then .reject
      else if policy = "open" then .accept
      else if config.allowFrom.contains "*" then .accept
      else if sender ≠ "" ∧ config.allowFrom.contains sender then .accept
      else if sender ≠ "" ∧ config.allowFrom.any (fun a => jsIncludes sender a) then .accept
      else if policy = "pairing" then .pairing
      else .reject
    else
      let groupPolicy := jsOrS config.groupPolicy "allowlist"
      if groupPolicy = "disabled" then .reject
      else if groupPolicy = "open" then .accept
      else if config.groupAllowFrom.contains "*" then .accept
      else if sender ≠ "" ∧ config.groupAllowFrom.contains sender then .accept
      else .reject

/-- index.ts `buildSessionKey`: derive the conversation session key. -/
def buildSessionKey (msg : IncomingMessage) : String :=
  if msg.is_group then
    "imessage-group-" ++
      (match msg.chat_id with
       | some n => if n = 0 then jsOrS msg.chat_guid (jsOrS msg.chat_identifier "unknown")
                   else toString n
       | none => jsOrS msg.chat_guid (jsOrS msg.chat_identifier "unknown"))
  else
    "imessage-dm-" ++ jsOrS msg.sender (jsOrS msg.handle "unknown")

/-! ## Pairing registry (src/pairing.ts)

The module-level `Map`s `pendingPairings` and `claimAttempts` are modelled
as insertion-ordered association lists; `mapGet`/`mapSet`/`mapDelete`
implement the JS `Map` operations (`set` replaces in place, preserving
iteration order; `delete` removes by key). -/

/-- pairing.ts `PairingRequest`. -/
structure PairingRequest where
  code : String
  handle : String
  createdAt : Nat
  claimed : Bool
deriving DecidableEq, Repr

/-- pairing.ts `ClaimAttempt`. -/
structure ClaimAttempt where
  count : Nat
  windowStart : Nat
deriving DecidableEq, Repr

abbrev PairingMap := List (String × PairingRequest)
abbrev AttemptMap := List (String × ClaimAttempt)

/-- JS `Map.get`. -/
def mapGet {α : Type} (m : List (String × α)) (k : String) : Option α :=
  (m.find? (fun e => e.1 == k)).map Prod.snd

/-- JS `Map.set`: replace in place if the key exists, else append. -/
def mapSet {α : Type} (m : List (String × α)) (k : String) (v : α) : List (String × α) :=
  if m.any (fun e => e.1 == k) then m.map (fun e => if e.1 == k then (k, v) else e)
  else m ++ [(k, v)]

/-- JS `Map.delete`. -/
def mapDelete {α : Type} (m : List (String × α)) (k : String) : List (String × α) :=
  m.filter (fun e => !(e.1 == k))

def PAIRING_CODE_LENGTH : Nat := 8
def PAIRING_CODE_ALPHABET : String := "ABCDEFGHJKLMNPQRSTUVWXYZ23456789"
def PAIRING_CODE_TTL_MS : Nat := 15 * 60 * 1000
def CLAIM_RATE_LIMIT_WINDOW_MS : Nat := 60 * 1000
def CLAIM_RATE_LIMIT_MAX_ATTEMPTS : Nat := 5

/-- The two module-level maps of pairing.ts. -/
structure PairingState where
  pendingPairings : PairingMap := []
  claimAttempts : AttemptMap := []
deriving DecidableEq, Repr

/-- pairing.ts `generateCode`.  `crypto.randomInt(0, alphabet.length)` is
modelled by an arbitrary stream `rand` of naturals reduced mod the
alphabet length, so every theorem holds for every randomness outcome. -/
def generateCode (rand : Nat → Nat) : String :=
  String.mk ((List.range PAIRING_CODE_LENGTH).map
    (fun i => PAIRING_CODE_ALPHABET.data.getD (rand i % PAIRING_CODE_ALPHABET.data.length) 'A'))

/-- The retry loop of pairing.ts `generateUniqueCode`, with the attempt
counter made explicit; `none` models the `throw` after 100 collisions. -/
def tryGenerate (rands : Nat → Nat → Nat) (existing : List String) :
    Nat → Nat → Option String
  | _, 0 => none
  | attempt, fuel + 1 =>
    let code := generateCode (rands attempt)
    if existing.contains code then tryGenerate rands existing (attempt + 1) fuel
    else some code

/-- pairing.ts `generateUniqueCode`: up to 100 attempts against the codes
currently in the registry. -/
def generateUniqueCode (rands : Nat → Nat → Nat) (existing : List String) : Option String :=
  tryGenerate rands existing 0 100

/-- pairing.ts `createPairingRequest`: reuse the first unclaimed entry for
the handle (refreshing its TTL) or store a fresh entry under a fresh code.
`none` models the exhausted-retries `throw` (the map is not modified in
that case, since the `throw` happens before `set`). -/
def createPairingRequest (rands : Nat → Nat → Nat) (now : Nat) (handle : String)
    (st : PairingState) : Option (String × PairingState) :=
  match st.pendingPairings.find? (fun e => e.2.handle == handle && !e.2.claimed) with
  | some e =>
      some (e.2.code,
        { st with pendingPairings := mapSet st.pendingPairings e.1 { e.2 with createdAt := now } })
  | none =>
    match generateUniqueCode rands (st.pendingPairings.map (fun e => e.2.code)) with
    | none => none
    | some code =>
        some (code,
          { st with pendingPairings :=
              (mapSet st.pendingPairings code ⟨code, handle, now, false⟩) })

/-- pairing.ts `checkClaimRateLimit`: returns the allow/deny verdict and
the updated attempt map. -/
def checkClaimRateLimit (now : Nat) (sourceId : String) (m : AttemptMap) :
    Bool × AttemptMap :=
  match mapGet m sourceId with
  | none => (true, mapSet m sourceId { count := 1, windowStart := now })
  | some att =>
    if now - att.windowStart > CLAIM_RATE_LIMIT_WINDOW_MS then
      (true, mapSet m sourceId { count := 1, windowStart := now })
    else
      (decide (att.count + 1 ≤ CLAIM_RATE_LIMIT_MAX_ATTEMPTS),
       mapSet m sourceId { att with count := att.count + 1 })

/-- The externally-owned configuration document: the `channels.imessage`
subtree plus the sibling keys the pairing code must not disturb
(`otherChannels` for the rest of `channels`, `other` for the rest of the
top level). -/
structure Config (α β : Type) where
  imessage : IMessageConfig
  otherChannels : β
  other : α
deriving DecidableEq, Repr

/-- The `{handle, error?}` result of `claimPairingCode`. -/
structure ClaimResult where
  handle : Option String := none
  error : Option String := none
deriving DecidableEq, Repr

/-- Full outcome of a `claimPairingCode` call: result value, updated
registry state, and the argument passed to `ctx.saveConfig` (or `none`
when no persistence call is issued). -/
structure ClaimOutcome (α β : Type) where
  result : ClaimResult
  state : PairingState
  savedConfig : Option (Config α β)
deriving DecidableEq, Repr

/-- `code.trim().toUpperCase()` as in `claimPairingCode`/`getPairingRequest`. -/
def normalizeCode (code : String) : String := jsToUpper (jsTrim code)

/-- The part of pairing.ts `claimPairingCode` after the early rate-limit
return: normalize, look up, validate, claim, and persist. -/
def claimLookup {α β : Type} (now : Nat) (code : String) (config : Config α β)
    (st1 : PairingState) : ClaimOutcome α β :=
  match mapGet st1.pendingPairings (normalizeCode code) with
    | none =>
      { result := { handle := none, error := some "Invalid or expired pairing code." },
        state := st1, savedConfig := none }
    | some request =>
      if now - request.createdAt > PAIRING_CODE_TTL_MS then
        { result := { handle := none, error := some "Pairing code has expired." },
          state := { st1 with pendingPairings := mapDelete st1.pendingPairings (normalizeCode code) },
          savedConfig := none }
      else if request.claimed then
        { result := { handle := none, error := some "Pairing code has already been claimed." },
          state := st1, savedConfig := none }
      else
        let st2 := { st1 with pendingPairings := mapDelete st1.pendingPairings (normalizeCode code) }
        if config.imessage.allowFrom.contains request.handle then
          { result := { handle := some request.handle }, state := st2, savedConfig := none }
        else
          { result := { handle := some request.handle }, state := st2,
            savedConfig := some { config with imessage :=
              { config.imessage with allowFrom := config.imessage.allowFrom ++ [request.handle] } } }

/-- pairing.ts `claimPairingCode`: rate-limit gate, then the lookup body. -/
def claimPairingCode {α β : Type} (now : Nat) (code : String) (config : Config α β)
    (sourceId : Option String) (st : PairingState) : ClaimOutcome α β :=
  let rl := match sourceId with
    | some sid => checkClaimRateLimit now sid st.claimAttempts
    | none => (true, st.claimAttempts)
  let st1 : PairingState := { st with claimAttempts := rl.2 }
  if rl.1 = false then
    { result := { handle := none, error := some "Rate limited. Try again in 1 minute." },
      state := st1, savedConfig := none }
  else claimLookup now code config st1

/-- pairing.ts `getPairingRequest`: lookup with lazy expiry deletion. -/
def getPairingRequest (now : Nat) (code : String) (st : PairingState) :
    Option PairingRequest × PairingState :=
  match mapGet st.pendingPairings (normalizeCode code) with
  | none => (none, st)
  | some request =>
    if now - request.createdAt > PAIRING_CODE_TTL_MS then
      (none, { st with pendingPairings := mapDelete st.pendingPairings (normalizeCode code) })
    else (some request, st)

/-- pairing.ts `cleanupExpiredPairings`: sweep both maps. -/
def cleanupExpiredPairings (now : Nat) (st : PairingState) : PairingState :=
  { pendingPairings := st.pendingPairings.filter
      (fun e => decide (now - e.2.createdAt ≤ PAIRING_CODE_TTL_MS)),
    claimAttempts := st.claimAttempts.filter
      (fun e => decide (now - e.2.windowStart ≤ CLAIM_RATE_LIMIT_WINDOW_MS)) }

/-- pairing.ts `listPairingRequests`: collect live entries, deleting
expired ones encountered during the scan. -/
def listPairingRequests (now : Nat) (st : PairingState) :
    List PairingRequest × PairingState :=
  ((st.pendingPairings.filter (fun e => decide (now - e.2.createdAt ≤ PAIRING_CODE_TTL_MS))).map
      Prod.snd,
   { st with pendingPairings := (st.pendingPairings.filter
      (fun e => decide (now - e.2.createdAt ≤ PAIRING_CODE_TTL_MS))) })

/-- Any state-mutating call into pairing.ts through its public surface. -/
inductive PairingOp where
  | create (rands : Nat → Nat → Nat) (now : Nat) (handle : String)
  | claim (now : Nat) (code : String) (config : Config Unit Unit) (sourceId : Option String)
  | cleanup (now : Nat)
  | getReq (now : Nat) (code : String)
  | listReqs (now : Nat)

/-- The state transition performed by one public pairing call. -/
def applyOp (st : PairingState) : PairingOp → PairingState
  | .create rands now h =>
      match createPairingRequest rands now h st with
      | some e => e.2
      | none => st
  | .claim now code config sid => (claimPairingCode now code config sid st).state
  | .cleanup now => cleanupExpiredPairings now st
  | .getReq now code => (getPairingRequest now code st).2
  | .listReqs now => (listPairingRequests now st).2

/-- States reachable from the initial empty maps through public calls. -/
inductive Reachable : PairingState → Prop where
  | init : Reachable {}
  | step {st : PairingState} (op : PairingOp) : Reachable st → Reachable (applyOp st op)

/-! ## RPC client (src/imsg-client.ts)

`handleLine` is modelled from the point where `JSON.parse` has succeeded
(malformed and blank lines are dropped earlier without touching state).
The `resolve`/`reject` continuations of a `PendingRequest` are abstract:
settling a call is recorded as an event naming the key and the stored
pending entry, so "settled exactly once" is visible as the event list. -/

/-- imsg-client.ts `PendingRequest`; `callId` stands for the identity of
the `resolve`/`reject` continuation pair, `hasTimer` for the optional
timeout handle. -/
structure PendingRequest where
  callId : Nat
  hasTimer : Bool
deriving DecidableEq, Repr

/-- The pending-call map of an `IMessageClient` (key = `String(id)`). -/
structure RpcState where
  pending : List (String × PendingRequest)
deriving DecidableEq, Repr

/-- A parsed JSON-RPC error object (`data` already stringified as in the
handler). -/
structure RpcError where
  message : Option String
  code : Option Int
  data : Option String
deriving DecidableEq, Repr

/-- The error-message composition of imsg-client.ts `handleLine`. -/
def composeRpcError (e : RpcError) : String :=
  let base := e.message.getD "imsg rpc error"
  let suffixes :=
    (match e.code with | some c => ["code=" ++ toString c] | none => []) ++
    (match e.data with
     | some d => if d = "" then [] else [d]
     | none => [])
  if suffixes = [] then base else base ++ ": " ++ String.intercalate " " suffixes

/-- A settlement event: the promise at `key` holding `call` is resolved,
or rejected with the given error message. -/
inductive Settlement where
  | resolve (key : String) (call : PendingRequest)
  | reject (key : String) (call : PendingRequest) (err : String)
deriving DecidableEq, Repr

/-- A successfully parsed line from the subprocess's stdout. -/
structure ParsedLine where
  id : Option Int
  error : Option RpcError
  method : Option String
deriving DecidableEq, Repr

/-- imsg-client.ts `handleLine` (post-parse): responses with a known id
settle and remove exactly that pending call; unknown ids are ignored;
lines without an id touch no pending state (they are notifications). -/
def handleLine (line : ParsedLine) (st : RpcState) : RpcState × List Settlement :=
  match line.id with
  | none => (st, [])
  | some pid =>
    let key := toString pid
    match mapGet st.pending key with
    | none => (st, [])
    | some p =>
      (⟨mapDelete st.pending key⟩,
       [match line.error with
        | some e => Settlement.reject key p (composeRpcError e)
        | none => Settlement.resolve key p])

/-- imsg-client.ts `failAll`: reject every pending call with one error and
clear the map. -/
def failAll (err : String) (st : RpcState) : RpcState × List Settlement :=
  (⟨[]⟩, st.pending.map (fun e => Settlement.reject e.1 e.2 err))

/-! ## Outbound chunking (index.ts `sendResponse`) -/

def IMESSAGE_CHUNK_LIMIT : Nat := 4000

/-- `config.textChunkLimit || IMESSAGE_CHUNK_LIMIT` (0 models `undefined`,
and both are falsy in JS). -/
def effectiveChunkLimit (config : IMessageConfig) : Nat :=
  if config.textChunkLimit = 0 then IMESSAGE_CHUNK_LIMIT else config.textChunkLimit

/-- JS `l.lastIndexOf(pat, fromIdx)` on character lists: the largest
start position `≤ fromIdx` at which `pat` occurs, searched backward. -/
def lastIndexOfFrom (l pat : List Char) : Nat → Option Nat
  | 0 => if pat.isPrefixOf l then some 0 else none
  | i + 1 =>
    if pat.isPrefixOf (l.drop (i + 1)) then some (i + 1)
    else lastIndexOfFrom l pat i

/-- `breakPoint < chunkLimit * 0.5` of the source, on integers:
a missing occurrence (JS `-1`) is always below the midpoint, and for a
found index `b`, `b < limit / 2` over the reals iff `2 * b < limit`. -/
def belowMidpoint (limit : Nat) : Option Nat → Bool
  | none => true
  | some b => decide (2 * b < limit)

/-- The break-point selection of `sendResponse`: paragraph break, then
line break, then period-space, each accepted only at or past the
midpoint; otherwise hard cut at the limit. -/
def pickBreakPoint (l : List Char) (limit : Nat) : Nat :=
  let b1 := lastIndexOfFrom l ['\n', '\n'] limit
  if belowMidpoint limit b1 then
    let b2 := lastIndexOfFrom l ['\n'] limit
    if belowMidpoint limit b2 then
      let b3 := lastIndexOfFrom l ['.', ' '] limit
      if belowMidpoint limit b3 then limit else b3.getD 0
    else b2.getD 0
  else b1.getD 0

/-- The `while (remaining.length > 0)` loop of `sendResponse`, with fuel
(the initial length suffices, since each iteration consumes at least one
character). -/
def chunkLoopFuel (limit : Nat) : Nat → List Char → List (List Char)
  | 0, _ => []
  | fuel + 1, l =>
    if l.isEmpty then []
    else if l.length ≤ limit then [l]
    else
      let bp := pickBreakPoint l limit
      l.take (bp + 1) :: chunkLoopFuel limit fuel (jsTrimList (l.drop (bp + 1)))

def chunkLoop (limit : Nat) (l : List Char) : List (List Char) :=
  chunkLoopFuel limit l.length l

/-- The chunk list built by `sendResponse` before sending. -/
def buildChunks (config : IMessageConfig) (text : String) : List String :=
  let chunkLimit := effectiveChunkLimit config
  if text.length ≤ chunkLimit then [text]
  else (chunkLoop chunkLimit text.data).map String.mk

/-- The per-chunk `textToSend`: every non-final chunk gets the trailing
continuation marker `" …"`. -/
def textToSend (chunks : List String) : List String :=
  chunks.mapIdx (fun i c => if i + 1 = chunks.length then c else c ++ " …")

/-! ## Helper lemmas -/

theorem listIncludes_refl (l : List Char) : listIncludes l l = true := by
  have h0 : l.isPrefixOf (l.drop 0) = true := by
    simp [List.isPrefixOf_iff_prefix]
  simp only [listIncludes, List.any_eq_true]
  exact ⟨0, by simp, h0⟩

theorem jsIncludes_refl (s : String) : jsIncludes s s = true :=
  listIncludes_refl s.data

theorem getD_mem_of_lt {l : List Char} {n : Nat} {d : Char} (h : n < l.length) :
    l.getD n d ∈ l := by
  rw [List.getD_eq_getElem l d h]
  exact List.getElem_mem h

theorem contains_iff_mem {l : List String} {a : String} : l.contains a = true ↔ a ∈ l := by
  simp [List.contains]

theorem mapGet_mapDelete {α : Type} (m : List (String × α)) (k : String) :
    mapGet (mapDelete m k) k = none := by
  unfold mapGet mapDelete
  cases hf : (m.filter fun e => !(e.1 == k)).find? (fun e => e.1 == k) with
  | none => rfl
  | some e =>
    have h1 := List.find?_some hf
    have h3 := List.of_mem_filter (List.mem_of_find?_eq_some hf)
    simp [h1] at h3

/-! ## Claim C3: claim rate limiter -/

/-- Attempt-map state after `n` claim attempts from `sid`, all at time
`now`, starting from an empty map. -/
def rlSeq (now : Nat) (sid : String) : Nat → AttemptMap
  | 0 => []
  | n + 1 => (checkClaimRateLimit now sid (rlSeq now sid n)).2

theorem rlSeq_eq (now : Nat) (sid : String) :
    ∀ n, 1 ≤ n → rlSeq now sid n = [(sid, ⟨n, now⟩)] := by
  intro n hn
  induction n with
  | zero => omega
  | succ k ih =>
    cases k with
    | zero =>
      simp [rlSeq, checkClaimRateLimit, mapGet, mapSet]
    | succ j =>
      rw [rlSeq, ih (by omega)]
      simp [checkClaimRateLimit, mapGet, mapSet, CLAIM_RATE_LIMIT_WINDOW_MS]

/-- Claim C3: a missing or stale (older than 60s) window restarts with
count 1 and allows; otherwise the count is incremented and the attempt is
allowed iff the new count is at most 5 — so from a fresh source the n-th
attempt within one window is allowed iff `n ≤ 5`, and once the window has
fully elapsed the counter resets and the attempt is allowed again. -/
theorem checkClaimRateLimit_spec (now : Nat) (sid : String) (m : AttemptMap) :
    (mapGet m sid = none →
        checkClaimRateLimit now sid m = (true, mapSet m sid ⟨1, now⟩))
    ∧ (∀ att : ClaimAttempt, mapGet m sid = some att →
        now - att.windowStart > CLAIM_RATE_LIMIT_WINDOW_MS →
        checkClaimRateLimit now sid m = (true, mapSet m sid ⟨1, now⟩))
    ∧ (∀ att : ClaimAttempt, mapGet m sid = some att →
        now - att.windowStart ≤ CLAIM_RATE_LIMIT_WINDOW_MS →
        checkClaimRateLimit now sid m
          = (decide (att.count + 1 ≤ CLAIM_RATE_LIMIT_MAX_ATTEMPTS),
             mapSet m sid ⟨att.count + 1, att.windowStart⟩))
    ∧ (∀ n, 1 ≤ n →
        ((checkClaimRateLimit now sid (rlSeq now sid (n - 1))).1 = true ↔ n ≤ 5))
    ∧ (∀ c t now2, now2 - t > CLAIM_RATE_LIMIT_WINDOW_MS →
        checkClaimRateLimit now2 sid [(sid, ⟨c, t⟩)] = (true, [(sid, ⟨1, now2⟩)])) := by
  refine ⟨?_, ?_, ?_, ?_, ?_⟩
  · intro h
    simp [checkClaimRateLimit, h]
  · intro att h hw
    simp [checkClaimRateLimit, h, hw]
  · intro att h hw
    have hw2 : ¬(now - att.windowStart > CLAIM_RATE_LIMIT_WINDOW_MS) := by omega
    simp [checkClaimRateLimit, h, hw2]
  · intro n hn
    match n, hn with
    | 1, _ =>
      simp [rlSeq, checkClaimRateLimit, mapGet]
    | k + 2, _ =>
      have hk : rlSeq now sid (k + 2 - 1) = [(sid, ⟨k + 1, now⟩)] :=
        rlSeq_eq now sid (k + 1) (by omega)
      rw [hk]
      simp [checkClaimRateLimit, mapGet, CLAIM_RATE_LIMIT_WINDOW_MS,
        CLAIM_RATE_LIMIT_MAX_ATTEMPTS]
  · intro c t now2 hw
    simp [checkClaimRateLimit, mapGet, mapSet, hw]

/-- Witness for `checkClaimRateLimit_spec`: from a fresh source, the 6th
attempt inside one window is denied. -/
theorem checkClaimRateLimit_spec_witness :
    (checkClaimRateLimit 0 "cli" (rlSeq 0 "cli" 5)).1 = false := by
  have h := (checkClaimRateLimit_spec 0 "cli" []).2.2.2.1 6 (by decide)
  exact Bool.eq_false_iff.mpr (fun ht => absurd (h.mp ht) (by decide))

/-! ## Claim C2: claim error paths -/

/-- The rate limiter does not deny this call (vacuous without a source). -/
def rlAllowed (now : Nat) (sourceId : Option String) (st : PairingState) : Prop :=
  match sourceId with
  | none => True
  | some sid => (checkClaimRateLimit now sid st.claimAttempts).1 = true

/-- Claim C2: a denied rate limit fails fast with the rate-limit error,
leaving the pairing map untouched; an absent normalized code yields the
invalid-code error; a present-but-expired entry yields the expired-code
error (distinct from the invalid one) and deletes the entry. -/
theorem claimPairingCode_error_spec {α β : Type} (now : Nat) (code : String)
    (config : Config α β) (st : PairingState) :
    (∀ sid, (checkClaimRateLimit now sid st.claimAttempts).1 = false →
        (claimPairingCode now code config (some sid) st).result
            = { handle := none, error := some "Rate limited. Try again in 1 minute." }
        ∧ (claimPairingCode now code config (some sid) st).state.pendingPairings
            = st.pendingPairings
        ∧ (claimPairingCode now code config (some sid) st).savedConfig = none)
    ∧ (∀ sourceId, rlAllowed now sourceId st →
        mapGet st.pendingPairings (normalizeCode code) = none →
        (claimPairingCode now code config sourceId st).result
            = { handle := none, error := some "Invalid or expired pairing code." }
        ∧ (claimPairingCode now code config sourceId st).state.pendingPairings
            = st.pendingPairings
        ∧ (claimPairingCode now code config sourceId st).savedConfig = none)
    ∧ (∀ sourceId req, rlAllowed now sourceId st →
        mapGet st.pendingPairings (normalizeCode code) = some req →
        now - req.createdAt > PAIRING_CODE_TTL_MS →
        (claimPairingCode now code config sourceId st).result
            = { handle := none, error := some "Pairing code has expired." }
        ∧ (claimPairingCode now code config sourceId st).state.pendingPairings
            = mapDelete st.pendingPairings (normalizeCode code)
        ∧ mapGet (claimPairingCode now code config sourceId st).state.pendingPairings
            (normalizeCode code) = none
        ∧ "Pairing code has expired." ≠ "Invalid or expired pairing code."
        ∧ (claimPairingCode now code config sourceId st).savedConfig = none) := by
  refine ⟨?_, ?_, ?_⟩
  · intro sid h
    refine ⟨?_, ?_, ?_⟩ <;> simp [claimPairingCode, h]
  · intro sourceId hra hget
    cases sourceId with
    | none =>
      refine ⟨?_, ?_, ?_⟩ <;> simp [claimPairingCode, claimLookup, hget]
    | some sid =>
      have hv : (checkClaimRateLimit now sid st.claimAttempts).1 = true := hra
      refine ⟨?_, ?_, ?_⟩ <;> simp [claimPairingCode, claimLookup, hv, hget]
  · intro sourceId req hra hget hexp
    cases sourceId with
    | none =>
      refine ⟨?_, ?_, ?_, by decide, ?_⟩ <;>
        simp [claimPairingCode, claimLookup, hget, hexp, mapGet_mapDelete]
    | some sid =>
      have hv : (checkClaimRateLimit now sid st.claimAttempts).1 = true := hra
      refine ⟨?_, ?_, ?_, by decide, ?_⟩ <;>
        simp [claimPairingCode, claimLookup, hv, hget, hexp, mapGet_mapDelete]

/-- Witness for `claimPairingCode_error_spec`: a concrete expired entry is
reported as expired and removed. -/
theorem claimPairingCode_error_spec_witness :
    (claimPairingCode 2000000 "abcdefgh" (⟨{}, (), ()⟩ : Config Unit Unit) none
        { pendingPairings := [("ABCDEFGH", ⟨"ABCDEFGH", "+15550000", 0, false⟩)] }).result
      = { handle := none, error := some "Pairing code has expired." } :=
  ((claimPairingCode_error_spec 2000000 "abcdefgh" (⟨{}, (), ()⟩ : Config Unit Unit)
      { pendingPairings := [("ABCDEFGH", ⟨"ABCDEFGH", "+15550000", 0, false⟩)] }).2.2
    none ⟨"ABCDEFGH", "+15550000", 0, false⟩ trivial (by decide) (by decide)).1

/-! ## Claim C4: allow-list persistence on successful claim -/

theorem count_append_self {l : List String} {a : String} (h : a ∉ l) :
    (l ++ [a]).count a = 1 := by
  simp [List.count_append, List.count_eq_zero.mpr h]

theorem claimLookup_success {α β : Type} {now : Nat} {code : String} {config : Config α β}
    {st1 : PairingState} {h0 : String}
    (hs : (claimLookup now code config st1).result.handle = some h0) :
    (h0 ∈ config.imessage.allowFrom →
        (claimLookup now code config st1).savedConfig = none)
    ∧ (h0 ∉ config.imessage.allowFrom →
        (claimLookup now code config st1).savedConfig
          = some { config with imessage :=
              { config.imessage with allowFrom := config.imessage.allowFrom ++ [h0] } }) := by
  rcases hget : mapGet st1.pendingPairings (normalizeCode code) with _ | req
  · exfalso
    simp [claimLookup, hget] at hs
  · by_cases hexp : now - req.createdAt > PAIRING_CODE_TTL_MS
    · exfalso
      simp [claimLookup, hget, hexp] at hs
    · cases hcl : req.claimed with
      | true =>
        exfalso
        simp [claimLookup, hget, hexp, hcl] at hs
      | false =>
        by_cases hc : req.handle ∈ config.imessage.allowFrom
        · have hh : req.handle = h0 := by
            simpa [claimLookup, hget, hexp, hcl, hc] using hs
          subst hh
          refine ⟨fun _ => ?_, fun hcf => absurd hc hcf⟩
          simp [claimLookup, hget, hexp, hcl, hc]
        · have hh : req.handle = h0 := by
            simpa [claimLookup, hget, hexp, hcl, hc] using hs
          subst hh
          refine ⟨fun hct => absurd hct hc, fun _ => ?_⟩
          simp [claimLookup, hget, hexp, hcl, hc]

/-- Claim C4: on a successful claim, no `saveConfig` call is issued when
the handle is already allow-listed; otherwise exactly one write happens,
the handle is appended exactly once (no duplicate), and every part of the
configuration outside `channels.imessage.allowFrom` is preserved. -/
theorem claimPairingCode_persist_spec {α β : Type} (now : Nat) (code : String)
    (config : Config α β) (sourceId : Option String) (st : PairingState) (h0 : String)
    (hs : (claimPairingCode now code config sourceId st).result.handle = some h0) :
    (h0 ∈ config.imessage.allowFrom →
        (claimPairingCode now code config sourceId st).savedConfig = none)
    ∧ (h0 ∉ config.imessage.allowFrom →
        (claimPairingCode now code config sourceId st).savedConfig
          = some { config with imessage :=
              { config.imessage with allowFrom := config.imessage.allowFrom ++ [h0] } }
        ∧ (config.imessage.allowFrom ++ [h0]).count h0 = 1)
    ∧ (∀ cfg', (claimPairingCode now code config sourceId st).savedConfig = some cfg' →
        cfg'.other = config.other ∧ cfg'.otherChannels = config.otherChannels
        ∧ cfg'.imessage.dmPolicy = config.imessage.dmPolicy
        ∧ cfg'.imessage.groupPolicy = config.imessage.groupPolicy
        ∧ cfg'.imessage.groupAllowFrom = config.imessage.groupAllowFrom
        ∧ cfg'.imessage.textChunkLimit = config.imessage.textChunkLimit) := by
  have key : ∃ st1 : PairingState,
      claimPairingCode now code config sourceId st = claimLookup now code config st1 := by
    cases sourceId with
    | none => exact ⟨st, by simp [claimPairingCode]⟩
    | some sid =>
      cases hv : (checkClaimRateLimit now sid st.claimAttempts).1 with
      | false =>
        exfalso
        simp [claimPairingCode, hv] at hs
      | true =>
        exact ⟨{ pendingPairings := st.pendingPairings,
                 claimAttempts := (checkClaimRateLimit now sid st.claimAttempts).2 },
               by simp [claimPairingCode, hv]⟩
  obtain ⟨st1, heq⟩ := key
  rw [heq] at hs ⊢
  have hsucc := claimLookup_success hs
  refine ⟨fun hmem => ?_, fun hmem => ?_, fun cfg' hcfg => ?_⟩
  · exact hsucc.1 hmem
  · exact ⟨hsucc.2 hmem, count_append_self hmem⟩
  · by_cases hc : h0 ∈ config.imessage.allowFrom
    · rw [hsucc.1 hc] at hcfg
      cases hcfg
    · rw [hsucc.2 hc] at hcfg
      cases hcfg
      simp

/-- Witness for `claimPairingCode_persist_spec`: a concrete successful
claim of a handle not yet allow-listed issues exactly one merged write. -/
theorem claimPairingCode_persist_spec_witness :
    (claimPairingCode 5 "abcdefgh" (⟨{}, (), ()⟩ : Config Unit Unit) none
        { pendingPairings := [("ABCDEFGH", ⟨"ABCDEFGH", "+15550000", 0, false⟩)] }).savedConfig
      = some ⟨{ allowFrom := ["+15550000"] }, (), ()⟩
    ∧ (([] : List String) ++ ["+15550000"]).count "+15550000" = 1 :=
  (claimPairingCode_persist_spec 5 "abcdefgh" (⟨{}, (), ()⟩ : Config Unit Unit) none
      { pendingPairings := [("ABCDEFGH", ⟨"ABCDEFGH", "+15550000", 0, false⟩)] }
      "+15550000" (by decide)).2.1 (by decide)

/-! ## Claim C7: RPC response correlation -/

/-- Claim C7: a response whose id matches a pending call settles exactly
that call (resolve without error, reject with the composed error),
removes it — and only it — from the pending set, and a replay of the same
response has no further effect; a response with an unknown id changes
nothing and settles nothing; and `failAll` rejects every pending call
with the single given error and empties the set. -/
theorem rpc_correlation_spec (pid : Int) (err : Option RpcError) (meth : Option String)
    (st : RpcState) :
    (∀ p : PendingRequest,
        st.pending.Pairwise (fun a b => a.1 ≠ b.1) →
        mapGet st.pending (toString pid) = some p →
        ((toString pid, p) ∈ st.pending
         ∧ (handleLine ⟨some pid, err, meth⟩ st).2
             = [match err with
                | some e => Settlement.reject (toString pid) p (composeRpcError e)
                | none => Settlement.resolve (toString pid) p]
         ∧ (∀ e ∈ st.pending, e ≠ (toString pid, p) →
              e ∈ (handleLine ⟨some pid, err, meth⟩ st).1.pending)
         ∧ (∀ e ∈ (handleLine ⟨some pid, err, meth⟩ st).1.pending,
              e ∈ st.pending ∧ e.1 ≠ toString pid)
         ∧ handleLine ⟨some pid, err, meth⟩ (handleLine ⟨some pid, err, meth⟩ st).1
             = ((handleLine ⟨some pid, err, meth⟩ st).1, [])))
    ∧ (mapGet st.pending (toString pid) = none →
        handleLine ⟨some pid, err, meth⟩ st = (st, []))
    ∧ (∀ errStr, (failAll errStr st).1.pending = []
        ∧ (∀ e ∈ st.pending, Settlement.reject e.1 e.2 errStr ∈ (failAll errStr st).2)
        ∧ (∀ s ∈ (failAll errStr st).2,
             ∃ e ∈ st.pending, s = Settlement.reject e.1 e.2 errStr)) := by
  refine ⟨?_, ?_, ?_⟩
  · intro p hu hget
    have hmem : (toString pid, p) ∈ st.pending := by
      unfold mapGet at hget
      cases hf : st.pending.find? (fun e => e.1 == toString pid) with
      | none => rw [hf] at hget; cases hget
      | some e0 =>
        rw [hf] at hget
        have hpred := List.find?_some hf
        have he0 : e0.1 = toString pid := by simpa using hpred
        have hp : e0.2 = p := by simpa using hget
        have : e0 = (toString pid, p) := Prod.ext he0 hp
        rw [← this]
        exact List.mem_of_find?_eq_some hf
    refine ⟨hmem, ?_, ?_, ?_, ?_⟩
    · simp [handleLine, hget]
    · intro e he hne
      have hsym : Symmetric (fun a b : String × PendingRequest => a.1 ≠ b.1) :=
        fun a b h heq => h heq.symm
      have hne1 : e.1 ≠ toString pid := List.Pairwise.forall hsym hu he hmem hne
      simp only [handleLine, hget]
      exact List.mem_filter.mpr ⟨he, by simp [hne1]⟩
    · intro e he
      simp only [handleLine, hget] at he
      have h1 := List.mem_filter.mp he
      refine ⟨h1.1, ?_⟩
      have := h1.2
      simpa using this
    · have hnone := mapGet_mapDelete st.pending (toString pid)
      simp [handleLine, hget, hnone]
  · intro hget
    simp [handleLine, hget]
  · intro errStr
    refine ⟨rfl, ?_, ?_⟩
    · intro e he
      exact List.mem_map_of_mem _ he
    · intro s hs
      obtain ⟨e, he, rfl⟩ := List.mem_map.mp hs
      exact ⟨e, he, rfl⟩

/-- Witness for `rpc_correlation_spec` on a concrete two-call pending set. -/
theorem rpc_correlation_spec_witness :
    (handleLine ⟨some 1, none, none⟩ ⟨[("1", ⟨1, true⟩), ("2", ⟨2, false⟩)]⟩).2
      = [Settlement.resolve "1" ⟨1, true⟩] :=
  ((rpc_correlation_spec 1 none none ⟨[("1", ⟨1, true⟩), ("2", ⟨2, false⟩)]⟩).1
    ⟨1, true⟩ (by decide) (by decide)).2.1

/-! ## Claim C8: outbound chunking -/

theorem length_dropWhile_le (p : Char → Bool) (l : List Char) :
    (l.dropWhile p).length ≤ l.length := by
  induction l with
  | nil => simp
  | cons a l ih =>
    by_cases h : p a
    · simp only [List.dropWhile_cons, h, if_true, List.length_cons]
      omega
    · simp [List.dropWhile_cons, h]

theorem jsTrimList_length_le (l : List Char) : (jsTrimList l).length ≤ l.length := by
  unfold jsTrimList
  rw [List.length_reverse]
  calc ((l.dropWhile Char.isWhitespace).reverse.dropWhile Char.isWhitespace).length
      ≤ (l.dropWhile Char.isWhitespace).reverse.length := length_dropWhile_le _ _
    _ = (l.dropWhile Char.isWhitespace).length := List.length_reverse _
    _ ≤ l.length := length_dropWhile_le _ _

theorem chunkLoopFuel_congr (limit : Nat) :
    ∀ fuel1 fuel2 l, l.length ≤ fuel1 → l.length ≤ fuel2 →
      chunkLoopFuel limit fuel1 l = chunkLoopFuel limit fuel2 l := by
  intro fuel1
  induction fuel1 with
  | zero =>
    intro fuel2 l h1 h2
    have hl : l = [] := List.length_eq_zero.mp (Nat.le_zero.mp h1)
    subst hl
    cases fuel2 <;> simp [chunkLoopFuel]
  | succ f1 ih =>
    intro fuel2 l h1 h2
    cases fuel2 with
    | zero =>
      have hl : l = [] := List.length_eq_zero.mp (Nat.le_zero.mp h2)
      subst hl
      simp [chunkLoopFuel]
    | succ f2 =>
      simp only [chunkLoopFuel]
      by_cases he : l.isEmpty
      · simp [he]
      · by_cases hlen : l.length ≤ limit
        · simp [he, hlen]
        · have hne : l ≠ [] := by
            intro h
            subst h
            exact he rfl
          have hpos : 0 < l.length := List.length_pos.mpr hne
          have hrest : (jsTrimList (l.drop (pickBreakPoint l limit + 1))).length
              ≤ l.length - 1 := by
            have := jsTrimList_length_le (l.drop (pickBreakPoint l limit + 1))
            rw [List.length_drop] at this
            omega
          simp only [he, hlen, if_neg, Bool.false_eq_true, if_false]
          congr 1
          exact ih f2 _ (by omega) (by omega)

theorem chunkLoop_eq {limit : Nat} {l : List Char} (hlen : limit < l.length) :
    chunkLoop limit l =
      l.take (pickBreakPoint l limit + 1)
        :: chunkLoop limit (jsTrimList (l.drop (pickBreakPoint l limit + 1))) := by
  have hne : l ≠ [] := by
    intro h
    subst h
    simp at hlen
  have he : l.isEmpty = false := by simp [List.isEmpty_iff, hne]
  have hnle : ¬ l.length ≤ limit := by omega
  unfold chunkLoop
  obtain ⟨n, hn⟩ : ∃ n, l.length = n + 1 := ⟨l.length - 1, by omega⟩
  rw [hn]
  simp only [chunkLoopFuel, he, Bool.false_eq_true, if_false]
  rw [if_neg hnle]
  congr 1
  have hrest : (jsTrimList (l.drop (pickBreakPoint l limit + 1))).length ≤ n := by
    have := jsTrimList_length_le (l.drop (pickBreakPoint l limit + 1))
    rw [List.length_drop] at this
    omega
  exact chunkLoopFuel_congr limit n _ _ hrest le_rfl

theorem lastIndexOfFrom_spec (l pat : List Char) :
    ∀ fromIdx i, lastIndexOfFrom l pat fromIdx = some i →
      pat.isPrefixOf (l.drop i) = true ∧ i ≤ fromIdx
      ∧ ∀ j, i < j → j ≤ fromIdx → pat.isPrefixOf (l.drop j) = false := by
  intro fromIdx
  induction fromIdx with
  | zero =>
    intro i h
    by_cases hp : pat.isPrefixOf l
    · simp only [lastIndexOfFrom, if_pos hp] at h
      cases h
      exact ⟨by simpa using hp, le_rfl, fun j hj1 hj2 => by omega⟩
    · simp only [lastIndexOfFrom, if_neg hp] at h
      cases h
  | succ k ih =>
    intro i h
    by_cases hp : pat.isPrefixOf (l.drop (k + 1))
    · simp only [lastIndexOfFrom, if_pos hp] at h
      cases h
      exact ⟨hp, le_rfl, fun j hj1 hj2 => by omega⟩
    · simp only [lastIndexOfFrom, if_neg hp] at h
      obtain ⟨h1, h2, h3⟩ := ih i h
      refine ⟨h1, by omega, fun j hj1 hj2 => ?_⟩
      rcases Nat.lt_or_ge j (k + 1) with hj | hj
      · exact h3 j hj1 (by omega)
      · have hjk : j = k + 1 := by omega
        subst hjk
        exact Bool.eq_false_iff.mpr hp

/-- Claim C8 (amended): a text within the limit is sent as one chunk equal
to the input; a longer text is split at `pickBreakPoint`, which takes the
backward-searched paragraph break, else line break, else period-space,
each only when at or past the midpoint of the limit, and otherwise
hard-cuts — producing a first chunk of `limit + 1` characters, one past
the limit; every non-final chunk receives the trailing `" …"` marker. -/
theorem chunking_spec (config : IMessageConfig) (text : String) :
    (text.length ≤ effectiveChunkLimit config → buildChunks config text = [text])
    ∧ (effectiveChunkLimit config < text.length →
        buildChunks config text
          = String.mk (text.data.take (pickBreakPoint text.data (effectiveChunkLimit config) + 1))
            :: (chunkLoop (effectiveChunkLimit config)
                (jsTrimList (text.data.drop
                  (pickBreakPoint text.data (effectiveChunkLimit config) + 1)))).map String.mk)
    ∧ (effectiveChunkLimit config < text.length →
        ((buildChunks config text).head?.map String.length)
          = some (min (pickBreakPoint text.data (effectiveChunkLimit config) + 1) text.length))
    ∧ (∀ (l : List Char) (limit b1 : Nat),
        lastIndexOfFrom l ['\n', '\n'] limit = some b1 → limit ≤ 2 * b1 →
        pickBreakPoint l limit = b1)
    ∧ (∀ (l : List Char) (limit b2 : Nat),
        belowMidpoint limit (lastIndexOfFrom l ['\n', '\n'] limit) = true →
        lastIndexOfFrom l ['\n'] limit = some b2 → limit ≤ 2 * b2 →
        pickBreakPoint l limit = b2)
    ∧ (∀ (l : List Char) (limit b3 : Nat),
        belowMidpoint limit (lastIndexOfFrom l ['\n', '\n'] limit) = true →
        belowMidpoint limit (lastIndexOfFrom l ['\n'] limit) = true →
        lastIndexOfFrom l ['.', ' '] limit = some b3 → limit ≤ 2 * b3 →
        pickBreakPoint l limit = b3)
    ∧ (∀ (l : List Char) (limit : Nat),
        belowMidpoint limit (lastIndexOfFrom l ['\n', '\n'] limit) = true →
        belowMidpoint limit (lastIndexOfFrom l ['\n'] limit) = true →
        belowMidpoint limit (lastIndexOfFrom l ['.', ' '] limit) = true →
        pickBreakPoint l limit = limit)
    ∧ (∀ (l pat : List Char) (fromIdx i : Nat),
        lastIndexOfFrom l pat fromIdx = some i →
        pat.isPrefixOf (l.drop i) = true ∧ i ≤ fromIdx
        ∧ ∀ j, i < j → j ≤ fromIdx → pat.isPrefixOf (l.drop j) = false)
    ∧ (∀ (chunks : List String) (i : Nat), i + 1 < chunks.length →
        (textToSend chunks)[i]? = (chunks[i]?).map (fun c => c ++ " …"))
    ∧ (∀ (chunks : List String) (i : Nat), i + 1 = chunks.length →
        (textToSend chunks)[i]? = chunks[i]?) := by
  refine ⟨?_, ?_, ?_, ?_, ?_, ?_, ?_, lastIndexOfFrom_spec, ?_, ?_⟩
  · intro h
    simp [buildChunks, h]
  · intro h
    have hno : ¬ text.length ≤ effectiveChunkLimit config := by omega
    have hlt : effectiveChunkLimit config < text.data.length := h
    simp only [buildChunks, hno, if_false, chunkLoop_eq hlt, List.map_cons]
  · intro h
    have hno : ¬ text.length ≤ effectiveChunkLimit config := by omega
    have hno2 : ¬ text.data.length ≤ effectiveChunkLimit config := hno
    have hlt : effectiveChunkLimit config < text.data.length := h
    simp only [buildChunks, hno, hno2, if_false, chunkLoop_eq hlt, List.map_cons,
      List.head?_cons]
    exact congrArg some (List.length_take _ _)
  · intro l limit b1 h1 hacc
    have hb : belowMidpoint limit (lastIndexOfFrom l ['\n', '\n'] limit) = false := by
      rw [h1]
      simp [belowMidpoint, Nat.not_lt.mpr hacc]
    simp only [pickBreakPoint, hb, Bool.false_eq_true, if_false]
    rw [h1]
    rfl
  · intro l limit b2 hb1 h2 hacc
    have hb : belowMidpoint limit (lastIndexOfFrom l ['\n'] limit) = false := by
      rw [h2]
      simp [belowMidpoint, Nat.not_lt.mpr hacc]
    simp only [pickBreakPoint, hb1, hb, Bool.false_eq_true, if_false, if_true]
    rw [h2]
    rfl
  · intro l limit b3 hb1 hb2 h3 hacc
    have hb : belowMidpoint limit (lastIndexOfFrom l ['.', ' '] limit) = false := by
      rw [h3]
      simp [belowMidpoint, Nat.not_lt.mpr hacc]
    simp only [pickBreakPoint, hb1, hb2, hb, Bool.false_eq_true, if_false, if_true]
    rw [h3]
    rfl
  · intro l limit hb1 hb2 hb3
    simp only [pickBreakPoint, hb1, hb2, hb3, if_true]
  · intro chunks i hi
    have hlt : i < chunks.length := by omega
    have hne : ¬ (i + 1 = chunks.length) := by omega
    rw [textToSend, List.getElem?_mapIdx, List.getElem?_eq_getElem hlt]
    simp [hne]
  · intro chunks i hi
    have hlt : i < chunks.length := by omega
    rw [textToSend, List.getElem?_mapIdx, List.getElem?_eq_getElem hlt]
    simp [hi]

/-- Claim C8 counterexample: with limit 10 and a 12-character break-free
text, the hard cut produces an 11-character first chunk — one past the
limit, not at it. -/
theorem chunking_hardcut_counterexample :
    effectiveChunkLimit { textChunkLimit := 10 } = 10
    ∧ buildChunks { textChunkLimit := 10 } "aaaaaaaaaaaa" = ["aaaaaaaaaaa", "a"]
    ∧ ("aaaaaaaaaaa" : String).length = 11
    ∧ (11 : Nat) ≠ 10 := by decide

/-- Witness for `chunking_spec`: a short text is one chunk, and a two-chunk
list gets a marker on the first chunk only. -/
theorem chunking_spec_witness :
    buildChunks { textChunkLimit := 10 } "short" = ["short"]
    ∧ (textToSend ["a", "b"])[0]? = some "a …" := by
  constructor
  · exact (chunking_spec { textChunkLimit := 10 } "short").1 (by decide)
  · have h := (chunking_spec { textChunkLimit := 10 } "short").2.2.2.2.2.2.2.2.1
      ["a", "b"] 0 (by decide)
    rw [h]
    decide

/-! ## Pairing map invariant (claims C6 and C10) -/

/-- Well-formedness of the pending-pairings map: every entry is keyed by
its own code and is unclaimed, keys are distinct, and no two entries
share a handle (at most one pending pairing per handle). -/
def PairingInv (l : PairingMap) : Prop :=
  (∀ e ∈ l, e.1 = e.2.code ∧ e.2.claimed = false)
  ∧ l.Pairwise (fun a b => a.1 ≠ b.1)
  ∧ l.Pairwise (fun a b => a.2.handle ≠ b.2.handle)

theorem mapGet_some_mem {α : Type} {m : List (String × α)} {k : String} {v : α}
    (h : mapGet m k = some v) : (k, v) ∈ m := by
  unfold mapGet at h
  cases hf : m.find? (fun e => e.1 == k) with
  | none => rw [hf] at h; cases h
  | some e0 =>
    rw [hf] at h
    have hpred := List.find?_some hf
    have he0 : e0.1 = k := by simpa using hpred
    have hv : e0.2 = v := by simpa using h
    have he : e0 = (k, v) := Prod.ext he0 hv
    rw [← he]
    exact List.mem_of_find?_eq_some hf

theorem find?_exists {α : Type} (p : α → Bool) {l : List α} {a : α}
    (ha : a ∈ l) (hpa : p a = true) : ∃ b, l.find? p = some b := by
  induction l with
  | nil => cases ha
  | cons x xs ih =>
    by_cases hx : p x = true
    · exact ⟨x, List.find?_cons_of_pos _ hx⟩
    · rcases List.mem_cons.mp ha with rfl | hmem
      · exact absurd hpa hx
      · obtain ⟨b, hb⟩ := ih hmem
        exact ⟨b, by rw [List.find?_cons_of_neg _ hx, hb]⟩

theorem pairwise_proj_map {α : Type} {π : α → α → Prop} {l : List α} (g : α → α)
    (hcong : ∀ x ∈ l, ∀ y ∈ l, π x y → π (g x) (g y))
    (hp : l.Pairwise π) : (l.map g).Pairwise π := by
  induction l with
  | nil => simp
  | cons a l ih =>
    rw [List.map_cons]
    rcases List.pairwise_cons.mp hp with ⟨ha, hl⟩
    refine List.pairwise_cons.mpr ⟨?_, ?_⟩
    · intro b hb
      obtain ⟨x, hx, rfl⟩ := List.mem_map.mp hb
      exact hcong a (by simp) x (by simp [hx]) (ha x hx)
    · exact ih (fun x hx y hy hxy => hcong x (by simp [hx]) y (by simp [hy]) hxy) hl

theorem PairingInv_filter (l : PairingMap) (q : String × PairingRequest → Bool)
    (h : PairingInv l) : PairingInv (l.filter q) := by
  obtain ⟨h1, h2, h3⟩ := h
  exact ⟨fun e he => h1 e (List.mem_of_mem_filter he),
    h2.sublist (List.filter_sublist l), h3.sublist (List.filter_sublist l)⟩

theorem mapSet_append {α : Type} (l : List (String × α)) (k : String) (v : α)
    (h : ∀ x ∈ l, x.1 ≠ k) : mapSet l k v = l ++ [(k, v)] := by
  unfold mapSet
  rw [if_neg]
  intro hany
  obtain ⟨x, hx, hxk⟩ := List.any_eq_true.mp hany
  exact h x hx (by simpa using hxk)

theorem refresh_inv {l : PairingMap} {e : String × PairingRequest} (now : Nat)
    (hinv : PairingInv l) (he : e ∈ l) :
    PairingInv (mapSet l e.1 { e.2 with createdAt := now })
    ∧ (e.1, { e.2 with createdAt := now }) ∈ mapSet l e.1 { e.2 with createdAt := now } := by
  obtain ⟨h1, h2, h3⟩ := hinv
  have hany : l.any (fun x => x.1 == e.1) = true :=
    List.any_eq_true.mpr ⟨e, he, by simp⟩
  have hms : mapSet l e.1 { e.2 with createdAt := now }
      = l.map (fun x => if x.1 == e.1 then (e.1, { e.2 with createdAt := now }) else x) := by
    unfold mapSet
    rw [if_pos hany]
  have hsym : Symmetric (fun a b : String × PairingRequest => a.1 ≠ b.1) :=
    fun a b hab heq => hab heq.symm
  have huniq : ∀ x ∈ l, x.1 = e.1 → x = e := by
    intro x hx hxe
    by_contra hne
    exact (List.Pairwise.forall hsym h2 hx he hne) hxe
  have hkey : ∀ x ∈ l,
      ((fun x => if x.1 == e.1 then (e.1, { e.2 with createdAt := now }) else x) x).1
        = x.1 := by
    intro x hx
    by_cases hx1 : x.1 = e.1 <;> simp [hx1]
  have hfields : ∀ x ∈ l,
      ((fun x => if x.1 == e.1 then (e.1, { e.2 with createdAt := now }) else x) x).2.code
          = x.2.code
      ∧ ((fun x => if x.1 == e.1 then (e.1, { e.2 with createdAt := now }) else x) x).2.claimed
          = x.2.claimed
      ∧ ((fun x => if x.1 == e.1 then (e.1, { e.2 with createdAt := now }) else x) x).2.handle
          = x.2.handle := by
    intro x hx
    by_cases hx1 : x.1 = e.1
    · have hxe := huniq x hx hx1
      subst hxe
      simp [hx1]
    · simp [hx1]
  refine ⟨⟨?_, ?_, ?_⟩, ?_⟩
  · rw [hms]
    intro y hy
    obtain ⟨x, hx, rfl⟩ := List.mem_map.mp hy
    obtain ⟨hc, hcl⟩ := h1 x hx
    obtain ⟨hf1, hf2, _⟩ := hfields x hx
    exact ⟨(hkey x hx).trans (hc.trans hf1.symm), hf2.trans hcl⟩
  · rw [hms]
    refine pairwise_proj_map _ (fun x hx y hy hxy => ?_) h2
    rw [hkey x hx, hkey y hy]
    exact hxy
  · rw [hms]
    refine pairwise_proj_map _ (fun x hx y hy hxy => ?_) h3
    rw [(hfields x hx).2.2, (hfields y hy).2.2]
    exact hxy
  · rw [hms]
    have hm := List.mem_map_of_mem
      (fun x => if x.1 == e.1 then (e.1, { e.2 with createdAt := now }) else x) he
    simpa using hm

theorem append_inv {l : PairingMap} {code handle : String} {now : Nat}
    (hinv : PairingInv l)
    (hcode : code ∉ l.map (fun e => e.2.code))
    (hhandle : ∀ x ∈ l, x.2.handle ≠ handle) :
    PairingInv (l ++ [(code, ⟨code, handle, now, false⟩)]) := by
  obtain ⟨h1, h2, h3⟩ := hinv
  refine ⟨?_, ?_, ?_⟩
  · intro e he
    rcases List.mem_append.mp he with he | he
    · exact h1 e he
    · rcases List.mem_singleton.mp he with rfl
      exact ⟨rfl, rfl⟩
  · rw [List.pairwise_append]
    refine ⟨h2, by simp, ?_⟩
    intro a ha b hb
    rcases List.mem_singleton.mp hb with rfl
    show a.1 ≠ code
    intro hak
    apply hcode
    have h4 : a.2.code = code := ((h1 a ha).1).symm.trans hak
    rw [← h4]
    exact List.mem_map_of_mem (fun e => e.2.code) ha
  · rw [List.pairwise_append]
    refine ⟨h3, by simp, ?_⟩
    intro a ha b hb
    rcases List.mem_singleton.mp hb with rfl
    exact hhandle a ha

theorem tryGenerate_not_mem (rands : Nat → Nat → Nat) (existing : List String) :
    ∀ fuel attempt code, tryGenerate rands existing attempt fuel = some code →
      code ∉ existing := by
  intro fuel
  induction fuel with
  | zero =>
    intro attempt code h
    cases h
  | succ f ih =>
    intro attempt code h
    simp only [tryGenerate] at h
    by_cases hc : existing.contains (generateCode (rands attempt)) = true
    · rw [if_pos hc] at h
      exact ih (attempt + 1) code h
    · rw [if_neg hc] at h
      cases h
      intro hmem
      exact hc (contains_iff_mem.mpr hmem)

/-! ## Claim C6: pairing request creation -/

theorem create_mem {rands : Nat → Nat → Nat} {now : Nat} {handle : String}
    {st : PairingState} {c : String} {st1 : PairingState}
    (hinv : PairingInv st.pendingPairings)
    (h : createPairingRequest rands now handle st = some (c, st1)) :
    PairingInv st1.pendingPairings
    ∧ ∃ (k : String) (r : PairingRequest), (k, r) ∈ st1.pendingPairings ∧ r.code = c
        ∧ r.handle = handle ∧ r.claimed = false ∧ r.createdAt = now := by
  rcases hf : st.pendingPairings.find? (fun e => e.2.handle == handle && !e.2.claimed)
    with _ | e
  · rcases hg : generateUniqueCode rands (st.pendingPairings.map (fun e => e.2.code))
      with _ | code
    · simp only [createPairingRequest, hf, hg] at h
      cases h
    · simp only [createPairingRequest, hf, hg, Option.some.injEq, Prod.mk.injEq] at h
      have hcode : code ∉ st.pendingPairings.map (fun e => e.2.code) :=
        tryGenerate_not_mem rands _ 100 0 code hg
    /- `find? = none` means no unclaimed entry for this handle exists; with
       the invariant (everything unclaimed) no entry has this handle. -/
      have hhandle : ∀ x ∈ st.pendingPairings, x.2.handle ≠ handle := by
        intro x hx
        have hnone := List.find?_eq_none.mp hf x hx
        have hcl : x.2.claimed = false := (hinv.1 x hx).2
        intro hh
        exact hnone (by simp [hh, hcl])
      have hkeys : ∀ x ∈ st.pendingPairings, x.1 ≠ code := by
        intro x hx hxc
        apply hcode
        have h4 : x.2.code = code := ((hinv.1 x hx).1).symm.trans hxc
        rw [← h4]
        exact List.mem_map_of_mem (fun e => e.2.code) hx
      have hset := mapSet_append st.pendingPairings code
        (⟨code, handle, now, false⟩ : PairingRequest) hkeys
      obtain ⟨hc, hst⟩ := h
      refine ⟨?_, ⟨code, ⟨code, handle, now, false⟩, ?_, hc, rfl, rfl, rfl⟩⟩
      · rw [← hst]
        simp only [hset]
        exact append_inv hinv hcode hhandle
      · rw [← hst]
        simp only [hset]
        exact List.mem_append.mpr (Or.inr (by simp))
  · simp only [createPairingRequest, hf, Option.some.injEq, Prod.mk.injEq] at h
    have hpred := List.find?_some hf
    have hemem := List.mem_of_find?_eq_some hf
    have hh : e.2.handle = handle ∧ e.2.claimed = false := by simpa using hpred
    obtain ⟨hc, hst⟩ := h
    obtain ⟨hri, hrm⟩ := refresh_inv now hinv hemem
    refine ⟨?_, ⟨e.1, { e.2 with createdAt := now }, ?_, hc, hh.1, hh.2, rfl⟩⟩
    · rw [← hst]
      exact hri
    · rw [← hst]
      exact hrm

theorem create_of_mem (rands : Nat → Nat → Nat) (now : Nat) {handle : String}
    {st : PairingState} {k : String} {r : PairingRequest}
    (hinv : PairingInv st.pendingPairings)
    (hmem : (k, r) ∈ st.pendingPairings) (hh : r.handle = handle) :
    ∃ st1, createPairingRequest rands now handle st = some (r.code, st1) := by
  have hcl : r.claimed = false := (hinv.1 (k, r) hmem).2
  have hq : (fun e : String × PairingRequest => e.2.handle == handle && !e.2.claimed) (k, r)
      = true := by
    simp [hh, hcl]
  obtain ⟨e, he⟩ := find?_exists
    (fun e : String × PairingRequest => e.2.handle == handle && !e.2.claimed) hmem hq
  have hpred := List.find?_some he
  have hemem := List.mem_of_find?_eq_some he
  have hhe : e.2.handle = handle ∧ e.2.claimed = false := by simpa using hpred
  have hsym : Symmetric (fun a b : String × PairingRequest => a.2.handle ≠ b.2.handle) :=
    fun a b hab heq => hab heq.symm
  have heq : e = (k, r) := by
    by_contra hne
    exact (List.Pairwise.forall hsym hinv.2.2 hemem hmem hne) (hhe.1.trans hh.symm)
  refine ⟨{ st with pendingPairings :=
      (mapSet st.pendingPairings e.1 { e.2 with createdAt := now }) }, ?_⟩
  simp only [createPairingRequest, he, heq]

theorem create_code_ne {rands : Nat → Nat → Nat} {now : Nat} {h2 : String}
    {st : PairingState} {c2 : String} {st1 : PairingState} {k1 : String}
    {r1 : PairingRequest}
    (hinv : PairingInv st.pendingPairings)
    (hmem : (k1, r1) ∈ st.pendingPairings)
    (hh : r1.handle ≠ h2)
    (h : createPairingRequest rands now h2 st = some (c2, st1)) :
    c2 ≠ r1.code := by
  rcases hf : st.pendingPairings.find? (fun e => e.2.handle == h2 && !e.2.claimed)
    with _ | e
  · rcases hg : generateUniqueCode rands (st.pendingPairings.map (fun e => e.2.code))
      with _ | code
    · simp only [createPairingRequest, hf, hg] at h
      cases h
    · simp only [createPairingRequest, hf, hg, Option.some.injEq, Prod.mk.injEq] at h
      obtain ⟨hc, _⟩ := h
      have hcode := tryGenerate_not_mem rands _ 100 0 code hg
      intro hcc
      apply hcode
      rw [hc, hcc]
      exact List.mem_map_of_mem (fun e => e.2.code) hmem
  · simp only [createPairingRequest, hf, Option.some.injEq, Prod.mk.injEq] at h
    have hpred := List.find?_some hf
    have hemem := List.mem_of_find?_eq_some hf
    have hhe : e.2.handle = h2 ∧ e.2.claimed = false := by simpa using hpred
    obtain ⟨hc, _⟩ := h
    intro hcc
    have hk1 : k1 = r1.code := by simpa using (hinv.1 (k1, r1) hmem).1
    have hek : e.1 = k1 := by
      rw [(hinv.1 e hemem).1, hc, hcc, hk1]
    have hne : e ≠ (k1, r1) := by
      intro heq
      rw [heq] at hhe
      exact hh (hhe.1)
    have hsym : Symmetric (fun a b : String × PairingRequest => a.1 ≠ b.1) :=
      fun a b hab heq => hab heq.symm
    exact (List.Pairwise.forall hsym hinv.2.1 hemem hmem hne) hek

/-- Claim C6: starting from a well-formed registry, a successful
`createPairingRequest h` leaves a well-formed registry with an unclaimed
entry for `h`; a repeated call for the same handle returns the same code
(also after a cleanup sweep that runs before the refreshed entry
expires); a call for a different handle never returns that code. -/
theorem createPairingRequest_spec (rands : Nat → Nat → Nat) (now : Nat) (h : String)
    (st : PairingState) (c : String) (st1 : PairingState)
    (hinv : PairingInv st.pendingPairings)
    (hc : createPairingRequest rands now h st = some (c, st1)) :
    PairingInv st1.pendingPairings
    ∧ (∀ (rands2 : Nat → Nat → Nat) (now2 : Nat), ∃ st2,
        createPairingRequest rands2 now2 h st1 = some (c, st2))
    ∧ (∀ now3, now3 - now ≤ PAIRING_CODE_TTL_MS →
        ∀ (rands2 : Nat → Nat → Nat) (now2 : Nat), ∃ st2,
          createPairingRequest rands2 now2 h (cleanupExpiredPairings now3 st1)
            = some (c, st2))
    ∧ (∀ (h2 : String) (rands2 : Nat → Nat → Nat) (now2 : Nat) (c2 : String)
         (st2 : PairingState), h2 ≠ h →
        createPairingRequest rands2 now2 h2 st1 = some (c2, st2) → c2 ≠ c) := by
  obtain ⟨hinv1, k, r, hrmem, hrcode, hrhandle, hrclaimed, hrcreated⟩ := create_mem hinv hc
  refine ⟨hinv1, ?_, ?_, ?_⟩
  · intro rands2 now2
    obtain ⟨st2, hst2⟩ := create_of_mem rands2 now2 hinv1 hrmem hrhandle
    exact ⟨st2, by rw [hst2, hrcode]⟩
  · intro now3 hlive rands2 now2
    have hkeep : (k, r) ∈ (cleanupExpiredPairings now3 st1).pendingPairings := by
      simp only [cleanupExpiredPairings]
      exact List.mem_filter.mpr ⟨hrmem, by simp [hrcreated, hlive]⟩
    have hinv2 : PairingInv (cleanupExpiredPairings now3 st1).pendingPairings :=
      PairingInv_filter _ _ hinv1
    obtain ⟨st2, hst2⟩ := create_of_mem rands2 now2 hinv2 hkeep hrhandle
    exact ⟨st2, by rw [hst2, hrcode]⟩
  · intro h2 rands2 now2 c2 st2 hne hcr
    have := create_code_ne hinv1 hrmem
      (by rw [hrhandle]; exact fun heq => hne heq.symm) hcr
    rw [hrcode] at this
    exact this

/-- Witness for `createPairingRequest_spec`: a concrete creation followed
by a repeated call for the same handle returns the same code. -/
theorem createPairingRequest_spec_witness :
    ∃ st2, createPairingRequest (fun _ i => i) 6 "h1"
        { pendingPairings := [("ABCDEFGH", ⟨"ABCDEFGH", "h1", 5, false⟩)] }
      = some ("ABCDEFGH", st2) :=
  (createPairingRequest_spec (fun _ i => i) 5 "h1" {} "ABCDEFGH"
      { pendingPairings := [("ABCDEFGH", ⟨"ABCDEFGH", "h1", 5, false⟩)] }
      (by simp [PairingInv]) (by decide)).2.1 (fun _ i => i) 6

/-! ## Claim C10: the claimed flag is never observable, the
already-claimed branch is dead code -/

theorem claimLookup_state_pending {α β : Type} (now : Nat) (code : String)
    (config : Config α β) (st1 : PairingState) :
    (claimLookup now code config st1).state.pendingPairings = st1.pendingPairings
    ∨ (claimLookup now code config st1).state.pendingPairings
        = mapDelete st1.pendingPairings (normalizeCode code) := by
  rcases hget : mapGet st1.pendingPairings (normalizeCode code) with _ | req
  · left
    simp [claimLookup, hget]
  · by_cases hexp : now - req.createdAt > PAIRING_CODE_TTL_MS
    · right
      simp [claimLookup, hget, hexp]
    · cases hcl : req.claimed with
      | true =>
        left
        simp [claimLookup, hget, hexp, hcl]
      | false =>
        by_cases hc : req.handle ∈ config.imessage.allowFrom
        · right
          simp [claimLookup, hget, hexp, hcl, hc]
        · right
          simp [claimLookup, hget, hexp, hcl, hc]

theorem claim_state_pending {α β : Type} (now : Nat) (code : String)
    (config : Config α β) (sourceId : Option String) (st : PairingState) :
    (claimPairingCode now code config sourceId st).state.pendingPairings = st.pendingPairings
    ∨ (claimPairingCode now code config sourceId st).state.pendingPairings
        = mapDelete st.pendingPairings (normalizeCode code) := by
  cases sourceId with
  | none =>
    have h := claimLookup_state_pending now code config
      { st with claimAttempts := st.claimAttempts }
    simpa [claimPairingCode] using h
  | some sid =>
    cases hv : (checkClaimRateLimit now sid st.claimAttempts).1 with
    | false =>
      left
      simp [claimPairingCode, hv]
    | true =>
      have h := claimLookup_state_pending now code config
        { st with claimAttempts := (checkClaimRateLimit now sid st.claimAttempts).2 }
      simpa [claimPairingCode, hv] using h

theorem getReq_state_pending (now : Nat) (code : String) (st : PairingState) :
    (getPairingRequest now code st).2.pendingPairings = st.pendingPairings
    ∨ (getPairingRequest now code st).2.pendingPairings
        = mapDelete st.pendingPairings (normalizeCode code) := by
  rcases hget : mapGet st.pendingPairings (normalizeCode code) with _ | req
  · left
    simp [getPairingRequest, hget]
  · by_cases hexp : now - req.createdAt > PAIRING_CODE_TTL_MS
    · right
      simp [getPairingRequest, hget, hexp]
    · left
      simp [getPairingRequest, hget, hexp]

/-- Every state reachable through the public pairing surface satisfies the
registry invariant: in particular every stored entry has `claimed = false`. -/
theorem reachable_inv {st : PairingState} (h : Reachable st) :
    PairingInv st.pendingPairings := by
  induction h with
  | init => simp [PairingInv]
  | step op hst ih =>
    rename_i st0
    cases op with
    | create rands now handle =>
      simp only [applyOp]
      cases hc : createPairingRequest rands now handle st0 with
      | none => exact ih
      | some e =>
        rcases e with ⟨c, st1⟩
        exact (create_mem ih hc).1
    | claim now code config sid =>
      simp only [applyOp]
      rcases claim_state_pending now code config sid st0 with h | h
      · rw [h]
        exact ih
      · rw [h]
        exact PairingInv_filter _ _ ih
    | cleanup now =>
      simp only [applyOp, cleanupExpiredPairings]
      exact PairingInv_filter _ _ ih
    | getReq now code =>
      simp only [applyOp]
      rcases getReq_state_pending now code st0 with h | h
      · rw [h]
        exact ih
      · rw [h]
        exact PairingInv_filter _ _ ih
    | listReqs now =>
      simp only [applyOp, listPairingRequests]
      exact PairingInv_filter _ _ ih

theorem claimLookup_not_already_claimed {α β : Type} (now : Nat) (code : String)
    (config : Config α β) (st1 : PairingState)
    (hinv : ∀ e ∈ st1.pendingPairings, e.2.claimed = false) :
    (claimLookup now code config st1).result.error
      ≠ some "Pairing code has already been claimed." := by
  rcases hget : mapGet st1.pendingPairings (normalizeCode code) with _ | req
  · simp only [claimLookup, hget]
    decide
  · have hcl : req.claimed = false :=
      hinv (normalizeCode code, req) (mapGet_some_mem hget)
    by_cases hexp : now - req.createdAt > PAIRING_CODE_TTL_MS
    · simp only [claimLookup, hget, if_pos hexp]
      decide
    · by_cases hc : req.handle ∈ config.imessage.allowFrom
      · simp [claimLookup, hget, hexp, hcl, hc]
      · simp [claimLookup, hget, hexp, hcl, hc]

theorem claimLookup_success_state {α β : Type} {now : Nat} {code : String}
    {config : Config α β} {st1 : PairingState} {h0 : String}
    (hs : (claimLookup now code config st1).result.handle = some h0) :
    (claimLookup now code config st1).state.pendingPairings
      = mapDelete st1.pendingPairings (normalizeCode code) := by
  rcases hget : mapGet st1.pendingPairings (normalizeCode code) with _ | req
  · exfalso
    simp [claimLookup, hget] at hs
  · by_cases hexp : now - req.createdAt > PAIRING_CODE_TTL_MS
    · exfalso
      simp [claimLookup, hget, hexp] at hs
    · cases hcl : req.claimed with
      | true =>
        exfalso
        simp [claimLookup, hget, hexp, hcl] at hs
      | false =>
        by_cases hc : req.handle ∈ config.imessage.allowFrom
        · simp [claimLookup, hget, hexp, hcl, hc]
        · simp [claimLookup, hget, hexp, hcl, hc]

/-- Claim C10: in every state reachable through the public pairing
surface, all stored entries have `claimed = false`; consequently
`claimPairingCode` can never return the already-claimed error, and a
second claim of a just-claimed code (the entry having been deleted in the
same atomic step) reports the invalid-code error instead. -/
theorem pairing_claimed_invariant (st : PairingState) (hr : Reachable st) :
    (∀ e ∈ st.pendingPairings, e.2.claimed = false)
    ∧ (∀ (now : Nat) (code : String) (config : Config Unit Unit) (sid : Option String),
        (claimPairingCode now code config sid st).result.error
          ≠ some "Pairing code has already been claimed.")
    ∧ (∀ (now : Nat) (code : String) (config config2 : Config Unit Unit)
        (sid : Option String) (h0 : String) (now2 : Nat),
        (claimPairingCode now code config sid st).result.handle = some h0 →
        (claimPairingCode now2 code config2 none
            (claimPairingCode now code config sid st).state).result.error
          = some "Invalid or expired pairing code.") := by
  have hinv := reachable_inv hr
  have hcl : ∀ e ∈ st.pendingPairings, e.2.claimed = false := fun e he => (hinv.1 e he).2
  refine ⟨hcl, ?_, ?_⟩
  · intro now code config sid
    cases sid with
    | none =>
      have h := claimLookup_not_already_claimed now code config st hcl
      simpa [claimPairingCode] using h
    | some s =>
      cases hv : (checkClaimRateLimit now s st.claimAttempts).1 with
      | false =>
        have hrl : (claimPairingCode now code config (some s) st).result.error
            = some "Rate limited. Try again in 1 minute." := by
          simp [claimPairingCode, hv]
        rw [hrl]
        decide
      | true =>
        have h := claimLookup_not_already_claimed now code config
          { st with claimAttempts := (checkClaimRateLimit now s st.claimAttempts).2 } hcl
        simpa [claimPairingCode, hv] using h
  · intro now code config config2 sid h0 now2 hs
    have key : ∃ st1 : PairingState,
        claimPairingCode now code config sid st = claimLookup now code config st1
        ∧ st1.pendingPairings = st.pendingPairings := by
      cases sid with
      | none => exact ⟨st, by simp [claimPairingCode], rfl⟩
      | some s =>
        cases hv : (checkClaimRateLimit now s st.claimAttempts).1 with
        | false =>
          exfalso
          simp [claimPairingCode, hv] at hs
        | true =>
          exact ⟨{ st with claimAttempts := (checkClaimRateLimit now s st.claimAttempts).2 },
            by simp [claimPairingCode, hv], rfl⟩
    obtain ⟨st1, heq, hpend⟩ := key
    rw [heq] at hs ⊢
    have hdel := claimLookup_success_state hs
    have hnone : mapGet (claimLookup now code config st1).state.pendingPairings
        (normalizeCode code) = none := by
      rw [hdel]
      exact mapGet_mapDelete _ _
    set X := (claimLookup now code config st1).state with hX
    have h2 : (claimLookup now2 code config2 X).result.error
        = some "Invalid or expired pairing code." := by
      simp only [claimLookup]
      rw [hnone]
    simpa [claimPairingCode] using h2

/-- Witness for `pairing_claimed_invariant` at the initial state. -/
theorem pairing_claimed_invariant_witness :
    (claimPairingCode 0 "x" (⟨{}, (), ()⟩ : Config Unit Unit) none {}).result.error
      ≠ some "Pairing code has already been claimed." :=
  (pairing_claimed_invariant {} Reachable.init).2.1 0 "x" ⟨{}, (), ()⟩ none

/-! ## Claim C5: pairing code shape -/

/-- Claim C5 (amended): every code produced by the generator has length
exactly 8 and draws each character from the unambiguous alphabet — which
has 32 characters (not 33 as claimed) and excludes `0`, `O`, `1`, `I`. -/
theorem generateCode_spec (rand : Nat → Nat) :
    (generateCode rand).length = PAIRING_CODE_LENGTH
    ∧ (∀ c ∈ (generateCode rand).data, c ∈ PAIRING_CODE_ALPHABET.data)
    ∧ PAIRING_CODE_ALPHABET.length = 32
    ∧ ('0' ∉ PAIRING_CODE_ALPHABET.data ∧ 'O' ∉ PAIRING_CODE_ALPHABET.data
       ∧ '1' ∉ PAIRING_CODE_ALPHABET.data ∧ 'I' ∉ PAIRING_CODE_ALPHABET.data) := by
  refine ⟨?_, ?_, by decide, by decide⟩
  · have h : ∀ l : List Char, (String.mk l).length = l.length := fun _ => rfl
    simp only [generateCode, h, List.length_map, List.length_range]
  · intro c hc
    simp only [generateCode, List.mem_map, List.mem_range] at hc
    obtain ⟨i, _, rfl⟩ := hc
    have hlen : PAIRING_CODE_ALPHABET.data.length = 32 := by decide
    exact getD_mem_of_lt (by rw [hlen]; exact Nat.mod_lt _ (by decide))

/-- Claim C5 counterexample: the code's alphabet has 32 characters, so no
generated code is drawn from a 33-character alphabet. -/
theorem generateCode_alphabet_counterexample :
    PAIRING_CODE_ALPHABET.length = 32 ∧ PAIRING_CODE_ALPHABET.length ≠ 33 := by decide

/-- Witness for `generateCode_spec` at a concrete randomness stream. -/
theorem generateCode_spec_witness :
    (generateCode (fun i => i)).length = PAIRING_CODE_LENGTH
    ∧ 'C' ∈ PAIRING_CODE_ALPHABET.data := by
  refine ⟨(generateCode_spec (fun i => i)).1, ?_⟩
  exact (generateCode_spec (fun i => i)).2.1 'C' (by decide)

/-! ## Claim C9: session key derivation -/

/-- Claim C9: direct messages key on sender, falling back to handle, then
`"unknown"`; group messages key on chat id, then GUID, then identifier,
then `"unknown"`; verified also on the two literal inputs of the spec. -/
theorem buildSessionKey_spec (msg : IncomingMessage) :
    (msg.is_group = false → msg.sender ≠ "" →
        buildSessionKey msg = "imessage-dm-" ++ msg.sender)
    ∧ (msg.is_group = false → msg.sender = "" → msg.handle ≠ "" →
        buildSessionKey msg = "imessage-dm-" ++ msg.handle)
    ∧ (msg.is_group = false → msg.sender = "" → msg.handle = "" →
        buildSessionKey msg = "imessage-dm-unknown")
    ∧ (∀ n : Int, msg.is_group = true → msg.chat_id = some n → n ≠ 0 →
        buildSessionKey msg = "imessage-group-" ++ toString n)
    ∧ (msg.is_group = true → (msg.chat_id = none ∨ msg.chat_id = some 0) →
        msg.chat_guid ≠ "" → buildSessionKey msg = "imessage-group-" ++ msg.chat_guid)
    ∧ (msg.is_group = true → (msg.chat_id = none ∨ msg.chat_id = some 0) →
        msg.chat_guid = "" → msg.chat_identifier ≠ "" →
        buildSessionKey msg = "imessage-group-" ++ msg.chat_identifier)
    ∧ (msg.is_group = true → (msg.chat_id = none ∨ msg.chat_id = some 0) →
        msg.chat_guid = "" → msg.chat_identifier = "" →
        buildSessionKey msg = "imessage-group-unknown")
    ∧ buildSessionKey { is_group := true, chat_id := some 42 } = "imessage-group-42"
    ∧ jsIncludes (buildSessionKey { is_group := true, chat_id := some 42 }) "42" = true
    ∧ buildSessionKey { sender := "", handle := "user@icloud.com" }
        = "imessage-dm-user@icloud.com"
    ∧ jsIncludes (buildSessionKey { sender := "", handle := "user@icloud.com" })
        "user@icloud.com" = true := by
  refine ⟨?_, ?_, ?_, ?_, ?_, ?_, ?_, by decide, by decide, by decide, by decide⟩
  · intro hg hs
    simp [buildSessionKey, jsOrS, hg, hs]
  · intro hg hs hh
    simp [buildSessionKey, jsOrS, hg, hs, hh]
  · intro hg hs hh
    simp [buildSessionKey, jsOrS, hg, hs, hh]
  · intro n hg hc hn
    simp [buildSessionKey, jsOrS, hg, hc, hn]
  · intro hg hc hguid
    rcases hc with hc | hc <;> simp [buildSessionKey, jsOrS, hg, hc, hguid]
  · intro hg hc hguid hident
    rcases hc with hc | hc <;> simp [buildSessionKey, jsOrS, hg, hc, hguid, hident]
  · intro hg hc hguid hident
    rcases hc with hc | hc <;> simp [buildSessionKey, jsOrS, hg, hc, hguid, hident]

/-- Witness for `buildSessionKey_spec` at concrete messages. -/
theorem buildSessionKey_spec_witness :
    buildSessionKey { text := "x", sender := "+15551234" } = "imessage-dm-+15551234" :=
  (buildSessionKey_spec { text := "x", sender := "+15551234" }).1 (by decide) (by decide)

/-! ## Claim C1: routing decision -/

/-- Claim C1 counterexample: with an empty effective sender and the empty
string on the allow-list, the entry is a substring of the sender
identifier, yet the decision is `pairing`, not `accept`. -/
theorem shouldRespond_substring_counterexample :
    effectiveSender { text := "hi" } = ""
    ∧ "" ∈ ({ dmPolicy := "pairing", allowFrom := [""] } : IMessageConfig).allowFrom
    ∧ jsIncludes (effectiveSender { text := "hi" }) "" = true
    ∧ shouldRespond { text := "hi" } { dmPolicy := "pairing", allowFrom := [""] }
        = RespondDecision.pairing
    ∧ RespondDecision.pairing ≠ RespondDecision.accept := by decide

/-- Claim C1 (amended): empty/whitespace text rejects regardless of
policy; `open` accepts; `closed`/`disabled` reject; an unmatched direct
sender under `pairing` policy yields the pairing signal; and for a
direct message with a NON-EMPTY effective sender, any allow-list entry
that is a substring of the sender causes acceptance unless the policy is
`closed`. -/
theorem shouldRespond_spec (msg : IncomingMessage) (config : IMessageConfig) :
    (jsTrim msg.text = "" → shouldRespond msg config = .reject)
    ∧ (jsTrim msg.text ≠ "" → msg.is_group = false →
        jsOrS config.dmPolicy "pairing" = "open" → shouldRespond msg config = .accept)
    ∧ (jsTrim msg.text ≠ "" → msg.is_group = true →
        jsOrS config.groupPolicy "allowlist" = "open" → shouldRespond msg config = .accept)
    ∧ (msg.is_group = false → jsOrS config.dmPolicy "pairing" = "closed" →
        shouldRespond msg config = .reject)
    ∧ (msg.is_group = true → jsOrS config.groupPolicy "allowlist" = "disabled" →
        shouldRespond msg config = .reject)
    ∧ (jsTrim msg.text ≠ "" → msg.is_group = false →
        jsOrS config.dmPolicy "pairing" = "pairing" →
        "*" ∉ config.allowFrom →
        (∀ a ∈ config.allowFrom, jsIncludes (effectiveSender msg) a = false) →
        shouldRespond msg config = .pairing)
    ∧ (jsTrim msg.text ≠ "" → msg.is_group = false →
        jsOrS config.dmPolicy "pairing" ≠ "closed" →
        effectiveSender msg ≠ "" →
        ∀ a ∈ config.allowFrom, jsIncludes (effectiveSender msg) a = true →
        shouldRespond msg config = .accept) := by
  refine ⟨?_, ?_, ?_, ?_, ?_, ?_, ?_⟩
  · intro ht
    simp [shouldRespond, ht]
  · intro ht hg hp
    simp [shouldRespond, ht, hg, hp]
  · intro ht hg hp
    simp [shouldRespond, ht, hg, hp]
  · intro hg hp
    by_cases ht : jsTrim msg.text = "" <;> simp [shouldRespond, ht, hg, hp]
  · intro hg hp
    by_cases ht : jsTrim msg.text = "" <;> simp [shouldRespond, ht, hg, hp]
  · intro ht hg hp hstar hall
    have hsr : jsIncludes (effectiveSender msg) (effectiveSender msg) = true :=
      jsIncludes_refl _
    have hc2 : ¬(¬effectiveSender msg = ""
        ∧ effectiveSender msg ∈ config.allowFrom) := by
      rintro ⟨hne, hcon⟩
      rw [hall _ hcon] at hsr
      exact Bool.false_ne_true hsr
    have hc3 : ¬(¬effectiveSender msg = ""
        ∧ ∃ x ∈ config.allowFrom, jsIncludes (effectiveSender msg) x = true) := by
      rintro ⟨hne, a, ha, hinc⟩
      rw [hall a ha] at hinc
      exact Bool.false_ne_true hinc
    simp [shouldRespond, ht, hg, hp, hstar, hc2, hc3]
  · intro ht hg hpc hne a ha hincl
    by_cases hp : jsOrS config.dmPolicy "pairing" = "open"
    · simp [shouldRespond, ht, hg, hp]
    · by_cases hstar : "*" ∈ config.allowFrom
      · simp [shouldRespond, ht, hg, hp, hpc, hstar]
      · by_cases hsen : effectiveSender msg ∈ config.allowFrom
        · simp [shouldRespond, ht, hg, hp, hpc, hstar, hsen, hne]
        · have hany : ∃ x ∈ config.allowFrom, jsIncludes (effectiveSender msg) x = true :=
            ⟨a, ha, hincl⟩
          simp [shouldRespond, ht, hg, hp, hpc, hstar, hsen, hany, hne]

/-- Witness for `shouldRespond_spec` at concrete inputs. -/
theorem shouldRespond_spec_witness :
    shouldRespond { text := "hi", sender := "+15551234" }
        { dmPolicy := "pairing", allowFrom := ["5551234"] } = RespondDecision.accept :=
  (shouldRespond_spec { text := "hi", sender := "+15551234" }
      { dmPolicy := "pairing", allowFrom := ["5551234"] }).2.2.2.2.2.2
    (by decide) (by decide) (by decide) (by decide) "5551234" (by decide) (by decide)

end WoprIMessage
